import Mathlib

/-!
Verification development for the BaseFlowArena beat-formatting pipeline.

The Python sources (`format_beats_no_ai_backup.py`, `format_beats.py`,
`test_vader_comprehensive.py`) are shallowly embedded below.  Strings are
modelled as `List Char` (with `String` wrappers at the API), Python floats as
`ℚ`, and the regular expressions of the source as direct character-list
matchers.  The embedding is over the ASCII reading of Python's character
classes (`\w`, `\s`, `\d`); all concrete inputs appearing in theorems are
ASCII.  `Path(...).stem` is modelled by the CPython suffix rule applied to the
whole string, which is exact for filenames containing no path separator.
-/

namespace BeatFlow

/-- ASCII model of Python's regex class `\w`: alphanumerics plus underscore. -/
def isPyWord (c : Char) : Bool := c.isAlphanum || c = '_'

/-- ASCII model of Python's regex class `\s`:
space, tab, newline, carriage return, vertical tab, form feed. -/
def isPySpace (c : Char) : Bool :=
  c = ' ' || c = '\t' || c = '\n' || c = '\r' || c = Char.ofNat 11 || c = Char.ofNat 12

/-- CPython `PurePath.stem` for a bare file name: drop the suffix
`name[i:]` when the last dot sits at an index `i` with `0 < i < len - 1`,
otherwise keep the name unchanged. -/
def pyStem (s : List Char) : List Char :=
  if '.' ∈ s then
    let i := s.length - 1 - s.reverse.indexOf '.'
    if 0 < i ∧ i < s.length - 1 then s.take i else s
  else s

/-- `re.sub(r'^\d{8}_', '', name)`: strip a leading 8-digit date token
followed by an underscore. -/
def dateStrip (s : List Char) : List Char :=
  match s with
  | d1 :: d2 :: d3 :: d4 :: d5 :: d6 :: d7 :: d8 :: u :: rest =>
    if (d1.isDigit && d2.isDigit && d3.isDigit && d4.isDigit &&
        d5.isDigit && d6.isDigit && d7.isDigit && d8.isDigit) && u = '_'
    then rest else s
  | _ => s

/-- Case-insensitive test that `pre` (given lowercase) begins `s`. -/
def startsWithCI (pre : List Char) (s : List Char) : Bool :=
  pre.isPrefixOf (s.map Char.toLower)

/-- `re.sub(r'^\[?\(?FREE\)?\]?\s*', '', name, flags=re.IGNORECASE)`:
a leading optional `[`, optional `(`, the literal `FREE` in any case,
optional `)`, optional `]`, then any run of whitespace.  All parts other
than `FREE` are optional, so the substitution fires exactly when `FREE`
appears after the optional brackets; otherwise the string is unchanged. -/
def freeStrip (s : List Char) : List Char :=
  let s1 := match s with | '[' :: t => t | _ => s
  let s2 := match s1 with | '(' :: t => t | _ => s1
  if startsWithCI ['f', 'r', 'e', 'e'] s2 then
    let s3 := s2.drop 4
    let s4 := match s3 with | ')' :: t => t | _ => s3
    let s5 := match s4 with | ']' :: t => t | _ => s4
    s5.dropWhile isPySpace
  else s

/-- `re.sub(r'[^\w\s\-]', '', name)`: keep word characters, whitespace and
hyphens, drop everything else. -/
def charFilter (s : List Char) : List Char :=
  s.filter (fun c => isPyWord c || isPySpace c || c = '-')

/-- `re.sub(r'\s+', ' ', name)`: replace each maximal whitespace run by a
single space.  The flag records whether the previous character was part of a
whitespace run. -/
def collapseSpacesAux : Bool → List Char → List Char
  | _, [] => []
  | prev, c :: rest =>
    if isPySpace c then
      if prev then collapseSpacesAux true rest
      else ' ' :: collapseSpacesAux true rest
    else c :: collapseSpacesAux false rest

def collapseSpaces (s : List Char) : List Char := collapseSpacesAux false s

/-- `name.replace(' ', '-')`. -/
def spaceToHyphen (s : List Char) : List Char :=
  s.map (fun c => if c = ' ' then '-' else c)

/-- `re.sub(r'-+', '-', name)`: collapse hyphen runs. -/
def collapseHyphensAux : Bool → List Char → List Char
  | _, [] => []
  | prev, c :: rest =>
    if c = '-' then
      if prev then collapseHyphensAux true rest
      else '-' :: collapseHyphensAux true rest
    else c :: collapseHyphensAux false rest

def collapseHyphens (s : List Char) : List Char := collapseHyphensAux false s

/-- `name.strip('-')`: drop hyphens from both ends. -/
def stripHyphens (s : List Char) : List Char :=
  ((s.dropWhile (· = '-')).reverse.dropWhile (· = '-')).reverse

/-- The cleaning tail of `sanitize_filename`: character filter, whitespace
collapse, space-to-hyphen, hyphen collapse, trim. -/
def cleanChain (s : List Char) : List Char :=
  stripHyphens (collapseHyphens (spaceToHyphen (collapseSpaces (charFilter s))))

/-- Body of the sanitized name (everything before the re-appended `.mp3`),
following `BeatFormatterNoAI.sanitize_filename` step by step. -/
def sanitizeCore (s : List Char) : List Char :=
  cleanChain (freeStrip (dateStrip (pyStem s)))

/-- The characters of the literal extension `".mp3"`. -/
def extChars : List Char := ['.', 'm', 'p', '3']

/-- `BeatFormatterNoAI.sanitize_filename` (identical in `BeatFormatter`):
sanitize the stem and re-append `.mp3`. -/
def sanitize_filename (s : String) : String :=
  String.mk (sanitizeCore s.data ++ extChars)

/-- `BeatFormatterNoAI.determine_mood_from_bpm`: tempo buckets with
inclusive upper bounds. -/
def determine_mood_from_bpm (bpm : Nat) : String :=
  if bpm ≤ 69 then "Chill"
  else if bpm ≤ 95 then "R&B"
  else if bpm ≤ 125 then "Boom Bap"
  else "Trap"

/-! ## Filename metadata extraction

`BeatFormatterNoAI.extract_metadata_from_filename` and
`BeatFormatter._fallback_metadata`.  Only the fields the claims touch are
embedded (year, bpm, title, type, artists); the sentiment computation is the
separate `get_enhanced_sentiment_score` below.  Each `re.search`/`re.findall`
becomes a leftmost scan with an explicit per-position matcher.
-/

/-- One position of `re.search(r'20\d{2}', s)`. -/
def yearAt (s : List Char) : Option (List Char) :=
  match s with
  | a :: b :: c :: d :: _ =>
    if a = '2' && b = '0' && c.isDigit && d.isDigit then some [a, b, c, d] else none
  | _ => none

/-- `re.search(r'20\d{2}', s)`: leftmost window `20dd`. -/
def findYear : List Char → Option (List Char)
  | [] => none
  | c :: rest =>
    match yearAt (c :: rest) with
    | some y => some y
    | none => findYear rest

/-- One position of `re.search(r'(\d{2,3})BPM', s, re.IGNORECASE)`: greedy
three digits first, then two, each followed by case-insensitive `BPM`. -/
def bpmAt (s : List Char) : Option (List Char) :=
  match s with
  | a :: b :: c :: rest =>
    if a.isDigit && b.isDigit && c.isDigit && startsWithCI ['b', 'p', 'm'] rest then
      some [a, b, c]
    else if a.isDigit && b.isDigit && startsWithCI ['b', 'p', 'm'] (c :: rest) then
      some [a, b]
    else none
  | _ => none

/-- `re.search(r'(\d{2,3})BPM', s, re.IGNORECASE)`, group 1. -/
def findBpm : List Char → Option (List Char)
  | [] => none
  | c :: rest =>
    match bpmAt (c :: rest) with
    | some b => some b
    | none => findBpm rest

/-- `re.search(r'["""]([^"""]+)["""], s)`: the character class in the source
holds three straight double quotes, so it is the singleton class `"`.  The
leftmost match takes the nonempty run between a quote and the next quote;
a quote with no nonempty closed run after it is skipped. -/
def findTitle : List Char → Option (List Char)
  | [] => none
  | c :: rest =>
    if c = '"' then
      let body := rest.takeWhile (fun x => x != '"')
      let after := rest.dropWhile (fun x => x != '"')
      if body.isEmpty || after.isEmpty then findTitle rest else some body
    else findTitle rest

/-! ### Type-beat pattern

The source tries the patterns
`([A-Z][a-z\.\s]+(?:\s+x\s+[A-Z][a-z\.\s]+)*)\s+type\s+beat` (three
case-variant spellings, all compiled with `re.IGNORECASE`, so all
equivalent).  Under `IGNORECASE`, `[A-Z]` accepts any ASCII letter and
`[a-z\.\s]` accepts letters, dots and whitespace; every character the starred
group can consume also lies in that class, so group 1 matches exactly a
letter followed by a nonempty run over letters/dots/whitespace.  The engine
returns the leftmost match with the greedy (longest) group whose suffix still
matches `\s+type\s+beat`. -/

/-- Character class of the group body under `IGNORECASE`. -/
def inTBClass (c : Char) : Bool := c.isAlpha || c = '.' || isPySpace c

/-- `\s+type\s+beat` (case-insensitive), unanchored on the right. -/
def tbSuffix (s : List Char) : Bool :=
  match s with
  | c :: _ =>
    isPySpace c &&
    (let r1 := s.dropWhile isPySpace
     startsWithCI ['t', 'y', 'p', 'e'] r1 &&
     (match r1.drop 4 with
      | d :: rest2 =>
        isPySpace d && startsWithCI ['b', 'e', 'a', 't'] ((d :: rest2).dropWhile isPySpace)
      | [] => false))
  | [] => false

/-- Longest group body first: try run length `k+1`, shrinking on failure. -/
def tbTryLen (c : Char) (rest : List Char) : Nat → Option (List Char)
  | 0 => none
  | k + 1 =>
    if tbSuffix (rest.drop (k + 1)) then some (c :: rest.take (k + 1))
    else tbTryLen c rest k

/-- Group match anchored at the head of `s`. -/
def tbAt (s : List Char) : Option (List Char) :=
  match s with
  | c :: rest =>
    if c.isAlpha then tbTryLen c rest (rest.takeWhile inTBClass).length else none
  | [] => none

/-- Leftmost type-beat group (re.findall's first group-1 value). -/
def typeBeatMatch : List Char → Option (List Char)
  | [] => none
  | c :: rest =>
    match tbAt (c :: rest) with
    | some g => some g
    | none => typeBeatMatch rest

/-- Python `str.strip()`: trim whitespace from both ends. -/
def pyStrip (s : List Char) : List Char :=
  ((s.dropWhile isPySpace).reverse.dropWhile isPySpace).reverse

/-- Python `pat in s` substring test. -/
def isSubstr (pat : List Char) : List Char → Bool
  | [] => pat.isEmpty
  | c :: rest => pat.isPrefixOf (c :: rest) || isSubstr pat rest

/-- Python `str.split(' x ')`: non-overlapping left-to-right splitting on
the literal three-character artist separator. -/
def splitOnXSep : List Char → List (List Char)
  | ' ' :: 'x' :: ' ' :: rest => [] :: splitOnXSep rest
  | c :: rest =>
    match splitOnXSep rest with
    | [] => [[c]]
    | h :: t => (c :: h) :: t
  | [] => [[]]

/-- The artist separator `" x "`. -/
def sepXChars : List Char := [' ', 'x', ' ']

/-- Lowercasing, Python `str.lower()` over ASCII. -/
def toLowerList (s : List Char) : List Char := s.map Char.toLower

/-- `pat in s.lower()` for a lowercase literal `pat`. -/
def containsLower (pat : String) (f : List Char) : Bool :=
  isSubstr pat.data (toLowerList f)

/-- Artist list of `extract_metadata_from_filename`: split the stripped
group on `" x "` (stripping each part) when the separator occurs, else the
singleton stripped group; empty when no type-beat pattern matched. -/
def extractArtists (f : List Char) : List (List Char) :=
  match typeBeatMatch f with
  | none => []
  | some g =>
    let a := pyStrip g
    if isSubstr sepXChars a then (splitOnXSep a).map pyStrip
    else [a]

/-- Category (`type`) field of `extract_metadata_from_filename`: the
stripped group plus `" Type Beat"`, else the fixed keyword fallback chain. -/
def extractType (f : List Char) : List Char :=
  match typeBeatMatch f with
  | some g => pyStrip g ++ " Type Beat".data
  | none =>
    if containsLower "instrumental" f then "Instrumental".data
    else if containsLower "hip hop" f then "Hip Hop".data
    else if containsLower "trap" f then "Trap".data
    else if containsLower "boom bap" f then "Boom Bap".data
    else if containsLower "lofi" f then "Lo-Fi".data
    else []

/-- Render an optional match as the source's `group() if match else ""`. -/
def optStr (o : Option (List Char)) : String :=
  match o with
  | some l => String.mk l
  | none => ""

/-- Metadata dictionary of `BeatFormatter._fallback_metadata`
(`format_beats.py`): fixed empty title/producer/mood, reduced type
detection, year and bpm regexes as above. -/
structure FallbackMetadata where
  trackTitle : String
  producer : String
  type : String
  mood : String
  genre : String
  year : String
  bpm : String
deriving DecidableEq

def fallback_metadata (f : String) : FallbackMetadata :=
  { trackTitle := ""
    producer := ""
    type :=
      if containsLower "type beat" f.data then "Type Beat"
      else if containsLower "instrumental" f.data then "Instrumental"
      else if containsLower "hip hop" f.data then "Hip Hop"
      else ""
    mood := ""
    genre := "Hip Hop"
    year := optStr (findYear f.data)
    bpm := optStr (findBpm f.data) }

/-- Outcome of the external completion call in
`BeatFormatter.extract_metadata_with_ai`: the call may raise
(`apiError`), return non-JSON content (`parseError`), or return a parsed
dictionary with the prompted field set. -/
inductive AIOutcome where
  | apiError : AIOutcome
  | parseError : AIOutcome
  | ok : FallbackMetadata → AIOutcome
deriving DecidableEq

/-- `BeatFormatter.extract_metadata_with_ai`: return the parsed dictionary
on success, `_fallback_metadata` on an API exception or a JSON-parse
failure.  Total by construction. -/
def extract_metadata_with_ai (f : String) (resp : AIOutcome) : FallbackMetadata :=
  match resp with
  | .ok m => m
  | .apiError => fallback_metadata f
  | .parseError => fallback_metadata f

/-! ## Text sentiment scorer

`get_enhanced_sentiment_score` (`test_vader_comprehensive.py`), the same
computation inlined in `extract_metadata_from_filename`.  The VADER
compound polarity score is an external lexicon lookup and enters as the
parameter `compound`; floats are modelled as `ℚ` and Python's `round`
(banker's rounding) as `pyRound`.
-/

/-- Python 3 `round` to an integer: nearest, ties to even. -/
def pyRound (q : ℚ) : ℤ :=
  let f := ⌊q⌋
  let r := q - (f : ℚ)
  if r < 1 / 2 then f
  else if 1 / 2 < r then f + 1
  else if f % 2 = 0 then f else f + 1

def positiveKeywords : List String :=
  ["hope", "love", "dream", "heaven", "peaceful", "gentle", "happy", "joy",
   "light", "sun", "morning", "feelings"]

def negativeKeywords : List String :=
  ["sad", "alone", "dark", "hell", "angry", "violent", "hate", "aggressive",
   "hard", "rough", "night", "evil", "sinister", "devious"]

/-- Decisiveness override: very neutral compound scores are replaced using
the emotional keyword counts over the lowercased filename. -/
def decisiveOverride (compound : ℚ) (filename : List Char) : ℚ :=
  if |compound| < 1 / 10 then
    let lf := toLowerList filename
    let pos := positiveKeywords.countP (fun w => isSubstr w.data lf)
    let neg := negativeKeywords.countP (fun w => isSubstr w.data lf)
    if pos > neg then 3 / 10
    else if neg > pos then -3 / 10
    else -1 / 10
  else compound

/-- Amplification toward the extremes with clamping. -/
def amplifyScore (s : ℚ) : ℚ :=
  if s > 1 / 5 then min 1 (s * (13 / 10))
  else if s < -(1 / 5) then max (-1) (s * (13 / 10))
  else s

/-- Piecewise display curve, `int(round(...))` per branch. -/
def displayCurve (s : ℚ) : ℤ :=
  if s ≥ 1 / 2 then pyRound (8 + (s - 1 / 2) * 4)
  else if s ≥ 1 / 10 then pyRound (6 + (s - 1 / 10) * 5)
  else if s ≥ -(1 / 10) then 5
  else if s ≥ -(1 / 2) then pyRound (3 + (s + 1 / 2) * 5)
  else pyRound (1 + (s + 1) * 2)

/-- `get_enhanced_sentiment_score`: raw score after override and
amplification, display score through the curve with final clamping to
`[1, 10]`. -/
def get_enhanced_sentiment_score (compound : ℚ) (filename : String) : ℚ × ℤ :=
  let s := amplifyScore (decisiveOverride compound filename.data)
  (s, max 1 (min 10 (displayCurve s)))

/-! ## Audio feature analyzer (waveform part)

`BeatFormatterNoAI.generate_waveform_and_bpm`, lines 249-266: RMS
normalization by the track maximum and downsampling through
`np.linspace(0, n-1, maxPoints, dtype=int)`.  The RMS values enter as a
`List ℚ` (librosa's decoding is external); `dtype=int` truncates the evenly
spaced values, which on non-negatives is the floor. -/

/-- `np.max` over the RMS list (RMS values are non-negative). -/
def listMax (l : List ℚ) : ℚ := l.foldr max 0

/-- `rms / np.max(rms) if np.max(rms) > 0 else rms`. -/
def normalizeRms (rms : List ℚ) : List ℚ :=
  if 0 < listMax rms then rms.map (fun x => x / listMax rms) else rms

/-- Index `i` of `np.linspace(0, n-1, m, dtype=int)`: the exact value
`i*(n-1)/(m-1)` truncated (Nat division is the floor). -/
def linspaceIdx (n m i : ℕ) : ℕ :=
  if m ≤ 1 then 0 else i * (n - 1) / (m - 1)

/-- Downsample to `maxPoints` values when longer, else keep all points. -/
def downsample (maxPoints : ℕ) (xs : List ℚ) : List ℚ :=
  if maxPoints < xs.length then
    (List.range maxPoints).map (fun i => xs.getD (linspaceIdx xs.length maxPoints i) 0)
  else xs

/-- Waveform part of `generate_waveform_and_bpm`. -/
def generate_waveform (rms : List ℚ) (maxPoints : ℕ) : List ℚ :=
  downsample maxPoints (normalizeRms rms)

/-- Modelled from the spec wording of §4.3 for comparison with the code:
resampling indices obtained by integer ROUNDING ("integer-rounded") of the
evenly spaced values rather than by truncation. -/
def linspaceIdxRoundedSpec (n m i : ℕ) : ℕ :=
  if m ≤ 1 then 0 else (pyRound ((i * (n - 1) : ℚ) / ((m : ℚ) - 1))).toNat

/-- Modelled from the spec: `downsample` with integer-rounded indices. -/
def downsampleRoundedSpec (maxPoints : ℕ) (xs : List ℚ) : List ℚ :=
  if maxPoints < xs.length then
    (List.range maxPoints).map
      (fun i => xs.getD (linspaceIdxRoundedSpec xs.length maxPoints i) 0)
  else xs

/-- Modelled from the spec: the waveform as the spec sentence describes it. -/
def generate_waveform_roundedSpec (rms : List ℚ) (maxPoints : ℕ) : List ℚ :=
  downsampleRoundedSpec maxPoints (normalizeRms rms)

/-! ## Rename step and record assembly

`BeatFormatterNoAI.rename_file` and the rename part of
`process_all_files`.  The file system is modelled as the list of names in
the beats directory. -/

/-- The record fields involved in renaming, from `process_single_file`
step 5: `filePath` is set to `beats/<sanitized>` already at assembly. -/
structure BeatRecord where
  originalFileName : String
  newFileName : String
  filePath : String
deriving DecidableEq

def assembleRecord (original : String) : BeatRecord :=
  { originalFileName := original
    newFileName := sanitize_filename original
    filePath := "beats/" ++ sanitize_filename original }

/-- `rename_file`: skip (returning `false`) when the destination exists,
else rename and return `true`. -/
def rename_file (fs : List String) (oldName newName : String) :
    List String × Bool :=
  if newName ∈ fs then (fs, false)
  else (fs.erase oldName ++ [newName], true)

/-- The rename step of `process_all_files`: on success the record's
`filePath` is (re)assigned to `beats/<newFileName>`; on failure the record
is left as assembled. -/
def processRenameStep (fs : List String) (r : BeatRecord) :
    List String × BeatRecord :=
  let res := rename_file fs r.originalFileName r.newFileName
  (res.1, if res.2 then { r with filePath := "beats/" ++ r.newFileName } else r)

/-! ## BPM backfill and mood assignment

`process_single_file`, lines 310-319: overwrite an empty `bpm` field with
the detected display tempo (Python truthiness: `None` and `0` are falsy)
and set the mood from a truthy display tempo. -/

/-- Returns the final `(bpm, mood)` pair given the filename-parsed `bpm`
string and the detected display tempo (`none` on decode failure). -/
def backfill_bpm_and_mood (bpm : String) (detected : Option Nat) :
    String × String :=
  let truthy : Bool := match detected with | none => false | some d => d != 0
  ((if (bpm == "") && truthy then toString (detected.getD 0) else bpm),
   (if truthy then determine_mood_from_bpm (detected.getD 0) else ""))


/-- Adjacency relation used to state "no two adjacent hyphens" (the shape
guaranteed by the hyphen collapse) via `List.Chain'`. -/
def HH (a b : Char) : Prop := ¬(a = '-' ∧ b = '-')

/-! ## Theorems -/

/-- C3: `determine_mood_from_bpm` is total on the naturals with range
exactly the four moods, inclusive upper boundaries at 69/95/125, and the
stated boundary values. -/
theorem determine_mood_total_boundaries :
    ∀ t : Nat,
      (determine_mood_from_bpm t = "Chill" ∨ determine_mood_from_bpm t = "R&B" ∨
        determine_mood_from_bpm t = "Boom Bap" ∨ determine_mood_from_bpm t = "Trap") ∧
      (t ≤ 69 → determine_mood_from_bpm t = "Chill") ∧
      (70 ≤ t → t ≤ 95 → determine_mood_from_bpm t = "R&B") ∧
      (96 ≤ t → t ≤ 125 → determine_mood_from_bpm t = "Boom Bap") ∧
      (126 ≤ t → determine_mood_from_bpm t = "Trap") ∧
      determine_mood_from_bpm 69 = "Chill" ∧ determine_mood_from_bpm 70 = "R&B" ∧
      determine_mood_from_bpm 95 = "R&B" ∧ determine_mood_from_bpm 96 = "Boom Bap" ∧
      determine_mood_from_bpm 125 = "Boom Bap" ∧ determine_mood_from_bpm 126 = "Trap" := by
  intro t
  refine ⟨?_, ?_, ?_, ?_, ?_, by decide, by decide, by decide, by decide, by decide, by decide⟩
  · unfold determine_mood_from_bpm
    split_ifs <;> tauto
  · intro h
    unfold determine_mood_from_bpm
    rw [if_pos h]
  · intro h1 h2
    unfold determine_mood_from_bpm
    rw [if_neg (by omega), if_pos h2]
  · intro h1 h2
    unfold determine_mood_from_bpm
    rw [if_neg (by omega), if_neg (by omega), if_pos h2]
  · intro h
    unfold determine_mood_from_bpm
    rw [if_neg (by omega), if_neg (by omega), if_neg (by omega)]

/-- Witness for C3 at the boundary tempo 70. -/
theorem determine_mood_total_boundaries_witness :
    (70 ≤ 70 ∧ 70 ≤ 95) ∧ determine_mood_from_bpm 70 = "R&B" :=
  ⟨⟨by decide, by decide⟩,
    (determine_mood_total_boundaries 70).2.2.1 (by decide) (by decide)⟩

/-- C6 is refuted in its year clause: metadata extraction runs on the
original filename, whose 8-digit date prefix contains the window "2023",
so the extracted year is "2023", not "". -/
theorem scenario_year_cex :
    optStr (findYear "20230206_Free Sad Type Beat - \"Alone\" (Instrumental).mp3".data)
        = "2023" ∧
    optStr (findYear "20230206_Free Sad Type Beat - \"Alone\" (Instrumental).mp3".data)
        ≠ "" :=
  ⟨by decide, by decide⟩

/-- C6 (amended): the scenario yields canonical name
"Sad-Type-Beat-Alone-Instrumental.mp3" and title "Alone", but year "2023",
because year extraction sees the original name whose date prefix supplies a
20xx window. -/
theorem scenario_alone_amended :
    sanitize_filename "20230206_Free Sad Type Beat - \"Alone\" (Instrumental).mp3"
        = "Sad-Type-Beat-Alone-Instrumental.mp3" ∧
    optStr (findTitle "20230206_Free Sad Type Beat - \"Alone\" (Instrumental).mp3".data)
        = "Alone" ∧
    optStr (findYear "20230206_Free Sad Type Beat - \"Alone\" (Instrumental).mp3".data)
        = "2023" :=
  ⟨by decide, by decide, by decide⟩

/-- C7: on the scenario filename the extractor splits the two artists on
the literal " x " separator and joins them back in the category field. -/
theorem artists_scenario :
    (extractArtists "J Cole x Kendrick Lamar Type Beat.mp3".data).map String.mk
        = ["J Cole", "Kendrick Lamar"] ∧
    String.mk (extractType "J Cole x Kendrick Lamar Type Beat.mp3".data)
        = "J Cole x Kendrick Lamar Type Beat" :=
  ⟨by decide, by decide⟩

/-- C8 is refuted in its record clause: on a collision the record does not
retain the original path — `filePath` was set to `beats/<sanitized>` at
assembly and stays there, naming a file that was never created; no flag is
recorded. -/
theorem rename_collision_path_cex :
    (processRenameStep ["a b.mp3", "a-b.mp3"] (assembleRecord "a b.mp3")).2.filePath
        = "beats/a-b.mp3" ∧
    (processRenameStep ["a b.mp3", "a-b.mp3"] (assembleRecord "a b.mp3")).2.filePath
        ≠ "beats/a b.mp3" :=
  ⟨by decide, by decide⟩

/-- C8 (amended): on a collision the rename is skipped — the file system is
returned unchanged (nothing overwritten, the original file untouched) and
the record is exactly as assembled, with `filePath` still pointing at
`beats/<sanitized>`; the collision shows up only in the `false` rename
result, not as a field of the record. -/
theorem rename_collision_amended :
    ∀ (fs : List String) (r : BeatRecord),
      r.newFileName ∈ fs → processRenameStep fs r = (fs, r) := by
  intro fs r h
  simp [processRenameStep, rename_file, h]

/-- Witness for C8 (amended) on a concrete colliding directory. -/
theorem rename_collision_amended_witness :
    (assembleRecord "a b.mp3").newFileName ∈ ["a b.mp3", "a-b.mp3"] ∧
    processRenameStep ["a b.mp3", "a-b.mp3"] (assembleRecord "a b.mp3")
        = (["a b.mp3", "a-b.mp3"], assembleRecord "a b.mp3") :=
  ⟨by decide, rename_collision_amended _ _ (by decide)⟩

/-- C9 is refuted in its "same heuristic extractor / same field set"
clause: the AI-mode fallback `_fallback_metadata` is a reduced extractor —
on the same filename its category differs from the no-AI heuristic's, and
it carries no artists or sentiment fields at all. -/
theorem ai_fallback_not_same_cex :
    (extract_metadata_with_ai "Lofi Type Beat.mp3" AIOutcome.apiError).type = "Type Beat" ∧
    String.mk (extractType "Lofi Type Beat.mp3".data) = "Lofi Type Beat" ∧
    (extract_metadata_with_ai "Lofi Type Beat.mp3" AIOutcome.apiError).type
        ≠ String.mk (extractType "Lofi Type Beat.mp3".data) :=
  ⟨by decide, by decide, by decide⟩

/-- C9 (amended): on any call failure or JSON-parse failure the AI-mode
extractor returns exactly the reduced `_fallback_metadata` dictionary (and
the parsed dictionary on success), so it always returns a metadata
dictionary and never raises past the pipeline boundary. -/
theorem ai_fallback_amended :
    ∀ f : String,
      extract_metadata_with_ai f AIOutcome.apiError = fallback_metadata f ∧
      extract_metadata_with_ai f AIOutcome.parseError = fallback_metadata f ∧
      ∀ m : FallbackMetadata, extract_metadata_with_ai f (AIOutcome.ok m) = m :=
  fun _ => ⟨rfl, rfl, fun _ => rfl⟩

/-- C10: an empty parsed bpm together with a truthy detected display tempo
is backfilled with the tempo's decimal rendering and the mood is assigned;
a display tempo of 0 or `none` is treated as absent (no backfill, no
mood), and a nonempty parsed bpm is never overwritten. -/
theorem bpm_backfill_behavior :
    ∀ (bpm : String) (d : Nat),
      (bpm = "" → d ≠ 0 → backfill_bpm_and_mood bpm (some d)
          = (toString d, determine_mood_from_bpm d)) ∧
      (backfill_bpm_and_mood bpm (some 0) = (bpm, "")) ∧
      (backfill_bpm_and_mood bpm none = (bpm, "")) ∧
      (bpm ≠ "" → d ≠ 0 → backfill_bpm_and_mood bpm (some d)
          = (bpm, determine_mood_from_bpm d)) := by
  intro bpm d
  refine ⟨?_, ?_, ?_, ?_⟩
  · intro h1 h2
    simp [backfill_bpm_and_mood, h1, h2]
  · simp [backfill_bpm_and_mood]
  · simp [backfill_bpm_and_mood]
  · intro h1 h2
    simp [backfill_bpm_and_mood, h1, h2]

/-- Witness for C10 with an empty parsed bpm and display tempo 93. -/
theorem bpm_backfill_behavior_witness :
    (("" : String) = "" ∧ 93 ≠ 0) ∧
      backfill_bpm_and_mood "" (some 93) = ("93", "R&B") :=
  ⟨⟨rfl, by decide⟩,
    ((bpm_backfill_behavior "" 93).1 rfl (by decide)).trans (by decide)⟩

/-- Bounds of the decisiveness override. -/
theorem decisiveOverride_bounds (c : ℚ) (f : List Char) (h1 : -1 ≤ c) (h2 : c ≤ 1) :
    -1 ≤ decisiveOverride c f ∧ decisiveOverride c f ≤ 1 := by
  unfold decisiveOverride
  split_ifs with h
  · refine ⟨?_, ?_⟩ <;> (dsimp only; split_ifs <;> norm_num)
  · exact ⟨h1, h2⟩

/-- Bounds of the amplification step. -/
theorem amplifyScore_bounds (s : ℚ) (h1 : -1 ≤ s) (h2 : s ≤ 1) :
    -1 ≤ amplifyScore s ∧ amplifyScore s ≤ 1 := by
  unfold amplifyScore
  split_ifs with hgt hlt
  · refine ⟨le_min (by norm_num) (by nlinarith), min_le_left _ _⟩
  · refine ⟨le_max_left _ _, max_le (by norm_num) (by nlinarith)⟩
  · exact ⟨h1, h2⟩

/-- C4: for a compound polarity score in `[-1,1]` (the lexicon analyzer's
guarantee) and any filename, the enhanced sentiment scorer returns a raw
score in `[-1,1]` and an integer display score in `[1,10]`. -/
theorem sentiment_score_bounds :
    ∀ (compound : ℚ) (filename : String), -1 ≤ compound → compound ≤ 1 →
      -1 ≤ (get_enhanced_sentiment_score compound filename).1 ∧
      (get_enhanced_sentiment_score compound filename).1 ≤ 1 ∧
      1 ≤ (get_enhanced_sentiment_score compound filename).2 ∧
      (get_enhanced_sentiment_score compound filename).2 ≤ 10 := by
  intro c f h1 h2
  have hd := decisiveOverride_bounds c f.data h1 h2
  have ha := amplifyScore_bounds _ hd.1 hd.2
  refine ⟨ha.1, ha.2, le_max_left _ _, max_le (by norm_num) (min_le_left _ _)⟩

/-- Witness for C4 at compound 0 and filename "sad". -/
theorem sentiment_score_bounds_witness :
    ((-1 : ℚ) ≤ 0 ∧ (0 : ℚ) ≤ 1) ∧
      (-1 ≤ (get_enhanced_sentiment_score 0 "sad").1 ∧
        (get_enhanced_sentiment_score 0 "sad").1 ≤ 1 ∧
        1 ≤ (get_enhanced_sentiment_score 0 "sad").2 ∧
        (get_enhanced_sentiment_score 0 "sad").2 ≤ 10) :=
  ⟨⟨by norm_num, by norm_num⟩,
    sentiment_score_bounds 0 "sad" (by norm_num) (by norm_num)⟩

/-- Every element of a list is at most `listMax`. -/
theorem mem_le_listMax : ∀ (l : List ℚ) (x : ℚ), x ∈ l → x ≤ listMax l := by
  intro l
  induction l with
  | nil => intro x hx; cases hx
  | cons a t ih =>
    intro x hx
    rcases List.mem_cons.mp hx with rfl | hx
    · exact le_max_left _ _
    · exact le_trans (ih x hx) (le_max_right _ _)

/-- `listMax` is never negative (its fold starts at 0). -/
theorem listMax_nonneg : ∀ l : List ℚ, 0 ≤ listMax l := by
  intro l
  induction l with
  | nil => exact le_refl 0
  | cons a t ih => exact le_trans ih (le_max_right _ _)

/-- Elements of the normalized RMS sequence lie in `[0, 1]`. -/
theorem normalizeRms_mem_bounds (rms : List ℚ) (hn : ∀ x ∈ rms, 0 ≤ x) :
    ∀ y ∈ normalizeRms rms, 0 ≤ y ∧ y ≤ 1 := by
  intro y hy
  unfold normalizeRms at hy
  split_ifs at hy with hm
  · obtain ⟨x, hx, rfl⟩ := List.mem_map.mp hy
    refine ⟨div_nonneg (hn x hx) (le_of_lt hm), ?_⟩
    rw [div_le_one hm]
    exact mem_le_listMax rms x hx
  · have hm0 : listMax rms = 0 := le_antisymm (not_lt.mp hm) (listMax_nonneg rms)
    refine ⟨hn y hy, ?_⟩
    calc y ≤ listMax rms := mem_le_listMax rms y hy
    _ = 0 := hm0
    _ ≤ 1 := by norm_num

/-- A `getD` value is a member or the default. -/
theorem getD_zero_mem_or (xs : List ℚ) (i : ℕ) : xs.getD i 0 ∈ xs ∨ xs.getD i 0 = 0 := by
  by_cases h : i < xs.length
  · left
    rw [List.getD_eq_getElem _ _ h]
    exact List.getElem_mem h
  · right
    exact List.getD_eq_default _ _ (le_of_not_lt h)

/-- C5 is refuted in its resampling clause: `dtype=int` truncates the
evenly spaced indices, while integer-rounded indices (the claim's wording)
give a different waveform already on a four-point sequence downsampled to
three points. -/
theorem waveform_rounding_cex :
    generate_waveform [0, 1 / 4, 1 / 2, 1] 3 = [0, 1 / 4, 1] ∧
    generate_waveform_roundedSpec [0, 1 / 4, 1 / 2, 1] 3 = [0, 1 / 2, 1] ∧
    generate_waveform [0, 1 / 4, 1 / 2, 1] 3
        ≠ generate_waveform_roundedSpec [0, 1 / 4, 1 / 2, 1] 3 := by
  have hm : listMax [0, 1 / 4, 1 / 2, 1] = 1 := by
    simp [listMax, max_def]; norm_num
  have hn : normalizeRms [0, 1 / 4, 1 / 2, 1] = [0, 1 / 4, 1 / 2, 1] := by
    rw [normalizeRms, hm]; norm_num
  have h1 : generate_waveform [0, 1 / 4, 1 / 2, 1] 3 = [0, 1 / 4, 1] := by
    rw [generate_waveform, hn, downsample]
    norm_num [List.range_succ, linspaceIdx, List.getD]
  have h2 : generate_waveform_roundedSpec [0, 1 / 4, 1 / 2, 1] 3 = [0, 1 / 2, 1] := by
    rw [generate_waveform_roundedSpec, hn, downsampleRoundedSpec]
    norm_num [List.range_succ, linspaceIdxRoundedSpec, pyRound, List.getD]
    norm_num [Int.fract, List.getElem?_cons_succ, List.getElem?_cons_zero,
      List.getElem_cons_succ, List.getElem_cons_zero]
    exact ⟨rfl, rfl⟩
  refine ⟨h1, h2, ?_⟩
  rw [h1, h2]
  intro hcon
  simp only [List.cons.injEq] at hcon
  norm_num at hcon

/-- C5 (amended): for a nonempty non-negative RMS sequence and positive
maxPoints, the waveform has length at most maxPoints and every element lies
in `[0, 1]`; normalization by the maximum is a no-op when the maximum is
zero.  (Overlong sequences are resampled at truncated, not rounded,
indices — see the counterexample.) -/
theorem waveform_bounds_amended :
    ∀ (rms : List ℚ) (maxPoints : ℕ), rms ≠ [] → (∀ x ∈ rms, 0 ≤ x) → 0 < maxPoints →
      (generate_waveform rms maxPoints).length ≤ maxPoints ∧
      (∀ y ∈ generate_waveform rms maxPoints, 0 ≤ y ∧ y ≤ 1) ∧
      (listMax rms = 0 → normalizeRms rms = rms) := by
  intro rms m _ hnn _
  have hb := normalizeRms_mem_bounds rms hnn
  refine ⟨?_, ?_, ?_⟩
  · unfold generate_waveform downsample
    split_ifs with hlen
    · simp
    · exact le_of_not_lt hlen
  · intro y hy
    unfold generate_waveform downsample at hy
    split_ifs at hy with hlen
    · obtain ⟨i, _, rfl⟩ := List.mem_map.mp hy
      rcases getD_zero_mem_or (normalizeRms rms)
          (linspaceIdx (normalizeRms rms).length m i) with hmem | h0
      · exact hb _ hmem
      · rw [h0]; norm_num
    · exact hb y hy
  · intro h0
    unfold normalizeRms
    rw [if_neg]
    rw [h0]
    norm_num

/-- Witness for C5 (amended) on a concrete four-point RMS sequence. -/
theorem waveform_bounds_amended_witness :
    (([0, 1 / 4, 1 / 2, 1] : List ℚ) ≠ [] ∧
      (∀ x ∈ ([0, 1 / 4, 1 / 2, 1] : List ℚ), 0 ≤ x) ∧ 0 < 3) ∧
      ((generate_waveform [0, 1 / 4, 1 / 2, 1] 3).length ≤ 3 ∧
        ∀ y ∈ generate_waveform [0, 1 / 4, 1 / 2, 1] 3, 0 ≤ y ∧ y ≤ 1) := by
  have hnn : ∀ x ∈ ([0, 1 / 4, 1 / 2, 1] : List ℚ), 0 ≤ x := by
    intro x hx
    simp at hx
    rcases hx with rfl | rfl | rfl | rfl <;> norm_num
  refine ⟨⟨by simp, hnn, by norm_num⟩, ?_, ?_⟩
  · exact (waveform_bounds_amended [0, 1 / 4, 1 / 2, 1] 3 (by simp) hnn (by norm_num)).1
  · exact (waveform_bounds_amended [0, 1 / 4, 1 / 2, 1] 3 (by simp) hnn (by norm_num)).2.1

/-- C1 is refuted: sanitizing "!12345678_y.mp3" yields "12345678_y.mp3",
whose stem re-triggers the date-prefix strip, so a second sanitization
yields "y.mp3" instead. -/
theorem sanitize_not_idempotent_cex :
    sanitize_filename "!12345678_y.mp3" = "12345678_y.mp3" ∧
    sanitize_filename (sanitize_filename "!12345678_y.mp3") = "y.mp3" ∧
    sanitize_filename (sanitize_filename "!12345678_y.mp3")
        ≠ sanitize_filename "!12345678_y.mp3" :=
  ⟨by decide, by decide, by decide⟩

/-- C2 is refuted: Python's `\w` class keeps underscores, so the canonical
name of "a_b.mp3" is "a_b.mp3", whose body contains '_', neither an
alphanumeric nor a hyphen. -/
theorem sanitize_charclass_cex :
    sanitize_filename "a_b.mp3" = "a_b.mp3" ∧
    ¬ (∀ c ∈ sanitizeCore "a_b.mp3".data, c.isAlphanum ∨ c = '-') :=
  ⟨by decide, by decide⟩

/-! ### Shape of the sanitizer body

The cleaning tail `cleanChain` produces a list over word characters and
hyphens with no whitespace, no adjacent hyphens and no hyphen at either
end, and it is the identity on any list of that shape.  These facts give
the amended C2 (output shape) and the amended C1 (idempotence away from
the date/FREE prefixes and the empty body). -/

/-- A word character is not whitespace. -/
theorem isPySpace_false_of_word {c : Char} (h : isPyWord c = true) :
    isPySpace c = false := by
  by_contra hc
  rw [Bool.not_eq_false] at hc
  simp only [isPySpace, Bool.or_eq_true, decide_eq_true_eq] at hc
  rcases hc with ((((rfl | rfl) | rfl) | rfl) | rfl) | rfl <;> exact absurd h (by decide)

/-- Characters surviving the filter are word, whitespace or hyphen. -/
theorem mem_charFilter {c : Char} {s : List Char} (h : c ∈ charFilter s) :
    isPyWord c = true ∨ isPySpace c = true ∨ c = '-' := by
  have h2 := (List.mem_filter.mp h).2
  simp only [Bool.or_eq_true, decide_eq_true_eq] at h2
  rcases h2 with (hw | hs) | hh
  · exact Or.inl hw
  · exact Or.inr (Or.inl hs)
  · exact Or.inr (Or.inr hh)

/-- Characters of the whitespace collapse are the space it inserts or
non-whitespace characters of the input. -/
theorem mem_collapseSpacesAux {c : Char} :
    ∀ (s : List Char) (b : Bool), c ∈ collapseSpacesAux b s →
      c = ' ' ∨ (c ∈ s ∧ isPySpace c = false) := by
  intro s
  induction s with
  | nil => intro b h; simp [collapseSpacesAux] at h
  | cons a t ih =>
    intro b h
    cases hsp : isPySpace a with
    | true =>
      rw [collapseSpacesAux, hsp] at h
      simp only [if_true] at h
      cases b with
      | true =>
        rcases ih true h with hc | ⟨hm, hns⟩
        · exact Or.inl hc
        · exact Or.inr ⟨List.mem_cons_of_mem a hm, hns⟩
      | false =>
        rcases List.mem_cons.mp h with rfl | h2
        · exact Or.inl rfl
        · rcases ih true h2 with hc | ⟨hm, hns⟩
          · exact Or.inl hc
          · exact Or.inr ⟨List.mem_cons_of_mem a hm, hns⟩
    | false =>
      rw [collapseSpacesAux, hsp] at h
      simp only [Bool.false_eq_true, if_false] at h
      rcases List.mem_cons.mp h with rfl | h2
      · exact Or.inr ⟨List.mem_cons_self .., hsp⟩
      · rcases ih false h2 with hc | ⟨hm, hns⟩
        · exact Or.inl hc
        · exact Or.inr ⟨List.mem_cons_of_mem a hm, hns⟩

/-- Characters after space-to-hyphen are hyphens or non-space input
characters. -/
theorem mem_spaceToHyphen {c : Char} {s : List Char} (h : c ∈ spaceToHyphen s) :
    c = '-' ∨ (c ∈ s ∧ c ≠ ' ') := by
  obtain ⟨a, ha, rfl⟩ := List.mem_map.mp h
  by_cases hsp : a = ' '
  · left; simp [hsp]
  · right
    refine ⟨?_, ?_⟩ <;> simp [hsp, ha]

/-- The hyphen collapse only reuses input characters. -/
theorem mem_collapseHyphensAux {c : Char} :
    ∀ (s : List Char) (b : Bool), c ∈ collapseHyphensAux b s → c ∈ s := by
  intro s
  induction s with
  | nil => intro b h; simp [collapseHyphensAux] at h
  | cons a t ih =>
    intro b h
    by_cases ha : a = '-'
    · subst ha
      rw [collapseHyphensAux] at h
      simp only [if_pos rfl] at h
      cases b with
      | true => exact List.mem_cons_of_mem _ (ih true h)
      | false =>
        rcases List.mem_cons.mp h with rfl | h2
        · exact List.mem_cons_self _ _
        · exact List.mem_cons_of_mem _ (ih true h2)
    · rw [collapseHyphensAux] at h
      simp only [if_neg ha] at h
      rcases List.mem_cons.mp h with rfl | h2
      · exact List.mem_cons_self _ _
      · exact List.mem_cons_of_mem _ (ih false h2)

/-- The trim only reuses input characters. -/
theorem mem_stripHyphens {c : Char} {s : List Char} (h : c ∈ stripHyphens s) :
    c ∈ s := by
  unfold stripHyphens at h
  rw [List.mem_reverse] at h
  have h2 := (List.dropWhile_suffix _).subset h
  rw [List.mem_reverse] at h2
  exact (List.dropWhile_suffix _).subset h2

/-- Every character of the cleaned body is a word character or a hyphen. -/
theorem cleanChain_mem {c : Char} {x : List Char} (h : c ∈ cleanChain x) :
    isPyWord c = true ∨ c = '-' := by
  unfold cleanChain at h
  have h1 := mem_stripHyphens h
  have h2 := mem_collapseHyphensAux _ _ h1
  rcases mem_spaceToHyphen h2 with hc | ⟨h3, hnsp⟩
  · exact Or.inr hc
  · rcases mem_collapseSpacesAux _ _ h3 with hc | ⟨h4, hspf⟩
    · exact absurd hc hnsp
    · rcases mem_charFilter h4 with hw | hsp | hh
      · exact Or.inl hw
      · rw [hsp] at hspf; cases hspf
      · exact Or.inr hh

/-- The cleaned body contains no whitespace. -/
theorem cleanChain_not_space {c : Char} {x : List Char} (h : c ∈ cleanChain x) :
    isPySpace c = false := by
  rcases cleanChain_mem h with hw | rfl
  · exact isPySpace_false_of_word hw
  · decide

/-- The cleaned body contains no dot. -/
theorem cleanChain_no_dot {x : List Char} : '.' ∉ cleanChain x := by
  intro h
  rcases cleanChain_mem h with hw | hh
  · exact absurd hw (by decide)
  · exact absurd hh (by decide)

/-- The hyphen collapse emits no two adjacent hyphens, and with the flag
set its output cannot start with a hyphen. -/
theorem chain_collapseHyphensAux :
    ∀ (s : List Char) (b : Bool),
      (collapseHyphensAux b s).Chain' HH ∧
        (b = true → ∀ c, (collapseHyphensAux b s).head? = some c → c ≠ '-') := by
  intro s
  induction s with
  | nil =>
    intro b
    refine ⟨List.chain'_nil, fun _ c hc => ?_⟩
    simp [collapseHyphensAux] at hc
  | cons a t ih =>
    intro b
    by_cases ha : a = '-'
    · subst ha
      cases b with
      | true =>
        have h2 := ih true
        rw [collapseHyphensAux]
        simp only [if_pos rfl, if_pos rfl]
        exact ⟨h2.1, fun _ => h2.2 rfl⟩
      | false =>
        have h2 := ih true
        have hres : collapseHyphensAux false ('-' :: t)
            = '-' :: collapseHyphensAux true t := by
          rw [collapseHyphensAux]
          simp
        constructor
        · rw [hres, List.chain'_cons']
          refine ⟨?_, h2.1⟩
          intro y hy
          have hy' := h2.2 rfl y hy
          exact fun hcon => hy' hcon.2
        · intro hb
          exact absurd hb Bool.false_ne_true
    · have h2 := ih false
      have hres : collapseHyphensAux b (a :: t) = a :: collapseHyphensAux false t := by
        rw [collapseHyphensAux]
        simp [ha]
      constructor
      · rw [hres, List.chain'_cons']
        refine ⟨?_, h2.1⟩
        intro y _
        exact fun hcon => ha hcon.1
      · intro _ c hc
        rw [hres] at hc
        simp only [List.head?_cons, Option.some.injEq] at hc
        subst hc
        exact ha

/-- `Chain' HH` is stable under reversal (`HH` is symmetric). -/
theorem chain_HH_reverse {l : List Char} (h : l.Chain' HH) : l.reverse.Chain' HH := by
  rw [List.chain'_reverse]
  exact h.imp fun a b hab => fun hcon => hab ⟨hcon.2, hcon.1⟩

/-- Head of a `dropWhile` fails the predicate. -/
theorem head?_dropWhile_false {p : Char → Bool} :
    ∀ (l : List Char) (c : Char), (l.dropWhile p).head? = some c → p c = false := by
  intro l
  induction l with
  | nil => intro c hc; simp at hc
  | cons a t ih =>
    intro c hc
    by_cases hp : p a
    · rw [List.dropWhile_cons_of_pos hp] at hc
      exact ih c hc
    · rw [List.dropWhile_cons_of_neg hp] at hc
      simp only [List.head?_cons, Option.some.injEq] at hc
      subst hc
      simpa using hp

/-- A nonempty `dropWhile` keeps the last element. -/
theorem getLast?_dropWhile_of_ne_nil {p : Char → Bool} :
    ∀ l : List Char, l.dropWhile p ≠ [] → (l.dropWhile p).getLast? = l.getLast? := by
  intro l
  induction l with
  | nil => intro h; simp at h
  | cons a t ih =>
    intro h
    by_cases hp : p a
    · rw [List.dropWhile_cons_of_pos hp] at h ⊢
      rw [ih h]
      have ht : t ≠ [] := by
        intro h0
        rw [h0] at h
        simp at h
      obtain ⟨b, t', rfl⟩ := List.exists_cons_of_ne_nil ht
      rw [List.getLast?_cons_cons]
    · rw [List.dropWhile_cons_of_neg hp]

/-- `dropWhile` is the identity when the head fails the predicate. -/
theorem dropWhile_eq_self_of_head {p : Char → Bool} :
    ∀ l : List Char, (∀ c, l.head? = some c → p c = false) → l.dropWhile p = l := by
  intro l h
  cases l with
  | nil => rfl
  | cons a t =>
    have ha := h a rfl
    rw [List.dropWhile_cons_of_neg (by simp [ha])]

/-- The cleaned body has no two adjacent hyphens. -/
theorem cleanChain_chain (x : List Char) : (cleanChain x).Chain' HH := by
  unfold cleanChain stripHyphens
  apply chain_HH_reverse
  apply List.Chain'.suffix _ (List.dropWhile_suffix _)
  apply chain_HH_reverse
  apply List.Chain'.suffix _ (List.dropWhile_suffix _)
  exact (chain_collapseHyphensAux _ false).1

/-- The cleaned body does not start with a hyphen. -/
theorem cleanChain_head {x : List Char} {c : Char}
    (h : (cleanChain x).head? = some c) : c ≠ '-' := by
  unfold cleanChain stripHyphens at h
  rw [List.head?_reverse] at h
  have hne : (((collapseHyphens (spaceToHyphen (collapseSpaces
      (charFilter x)))).dropWhile (· = '-')).reverse.dropWhile (· = '-')) ≠ [] := by
    intro h0
    rw [h0] at h
    simp at h
  rw [getLast?_dropWhile_of_ne_nil _ hne] at h
  rw [List.getLast?_reverse] at h
  have := head?_dropWhile_false _ c h
  simpa using this

/-- The cleaned body does not end with a hyphen. -/
theorem cleanChain_last {x : List Char} {c : Char}
    (h : (cleanChain x).getLast? = some c) : c ≠ '-' := by
  unfold cleanChain stripHyphens at h
  rw [List.getLast?_reverse] at h
  have := head?_dropWhile_false _ c h
  simpa using this

/-- The whitespace collapse is the identity on whitespace-free input. -/
theorem collapseSpaces_no_space :
    ∀ (s : List Char) (b : Bool), (∀ c ∈ s, isPySpace c = false) →
      collapseSpacesAux b s = s := by
  intro s
  induction s with
  | nil => intro b _; rfl
  | cons a t ih =>
    intro b h
    have ha := h a (List.mem_cons_self a t)
    have ht := fun c hc => h c (List.mem_cons_of_mem a hc)
    rw [collapseSpacesAux, ha]
    simp only [Bool.false_eq_true, if_false]
    rw [ih false ht]

/-- Space-to-hyphen is the identity on space-free input. -/
theorem spaceToHyphen_no_space {s : List Char} (h : ∀ c ∈ s, c ≠ ' ') :
    spaceToHyphen s = s := by
  unfold spaceToHyphen
  conv_rhs => rw [← List.map_id s]
  apply List.map_congr_left
  intro a ha
  simp [h a ha]

/-- The hyphen collapse is the identity on `Chain' HH` input whose head
respects the flag. -/
theorem collapseHyphens_no_op :
    ∀ (s : List Char) (b : Bool), s.Chain' HH →
      (b = true → ∀ c, s.head? = some c → c ≠ '-') → collapseHyphensAux b s = s := by
  intro s
  induction s with
  | nil => intro b _ _; rfl
  | cons a t ih =>
    intro b hch hhd
    by_cases ha : a = '-'
    · subst ha
      cases b with
      | true => exact absurd rfl (hhd rfl '-' rfl)
      | false =>
        have hht : ∀ c, t.head? = some c → c ≠ '-' := by
          intro c hc hcon
          subst hcon
          have hmem : '-' ∈ t.head? := by rw [hc]; rfl
          exact (List.chain'_cons'.mp hch).1 '-' hmem ⟨rfl, rfl⟩
        have ht := ih true (List.chain'_cons'.mp hch).2 fun _ => hht
        simp [collapseHyphensAux, ht]
    · have ht := ih false (List.chain'_cons'.mp hch).2
        fun hb => absurd hb Bool.false_ne_true
      simp [collapseHyphensAux, ha, ht]

/-- The trim is the identity when neither end is a hyphen. -/
theorem stripHyphens_no_op {s : List Char}
    (hh : ∀ c, s.head? = some c → c ≠ '-')
    (hl : ∀ c, s.getLast? = some c → c ≠ '-') :
    stripHyphens s = s := by
  unfold stripHyphens
  have h1 : s.dropWhile (· = '-') = s := by
    apply dropWhile_eq_self_of_head
    intro c hc
    simpa using hh c hc
  rw [h1]
  have h2 : s.reverse.dropWhile (· = '-') = s.reverse := by
    apply dropWhile_eq_self_of_head
    intro c hc
    rw [List.head?_reverse] at hc
    simpa using hl c hc
  rw [h2, List.reverse_reverse]

/-- The filter is the identity on word/hyphen input. -/
theorem charFilter_eq_self {s : List Char}
    (h : ∀ c ∈ s, isPyWord c = true ∨ c = '-') : charFilter s = s := by
  unfold charFilter
  rw [List.filter_eq_self]
  intro a ha
  rcases h a ha with hw | rfl
  · simp [hw]
  · simp

/-- The cleaning tail is idempotent. -/
theorem cleanChain_idem (x : List Char) : cleanChain (cleanChain x) = cleanChain x := by
  have hmem : ∀ c ∈ cleanChain x, isPyWord c = true ∨ c = '-' :=
    fun c hc => cleanChain_mem hc
  have hnsp : ∀ c ∈ cleanChain x, isPySpace c = false :=
    fun c hc => cleanChain_not_space hc
  have h1 : charFilter (cleanChain x) = cleanChain x := charFilter_eq_self hmem
  have h2 : collapseSpaces (cleanChain x) = cleanChain x :=
    collapseSpaces_no_space _ false hnsp
  have h3 : spaceToHyphen (cleanChain x) = cleanChain x := by
    apply spaceToHyphen_no_space
    intro c hc hcon
    subst hcon
    have := hnsp ' ' hc
    simp [isPySpace] at this
  have h4 : collapseHyphens (cleanChain x) = cleanChain x := by
    apply collapseHyphens_no_op _ false (cleanChain_chain x)
    exact fun hb => absurd hb Bool.false_ne_true
  have h5 : stripHyphens (cleanChain x) = cleanChain x :=
    stripHyphens_no_op (fun c hc => cleanChain_head hc) fun c hc => cleanChain_last hc
  show stripHyphens (collapseHyphens (spaceToHyphen (collapseSpaces
      (charFilter (cleanChain x))))) = cleanChain x
  rw [h1, h2, h3, h4, h5]

/-- Stem of a nonempty body with the `.mp3` extension appended: the last
dot of the result is the appended one. -/
theorem pyStem_append_ext {X : List Char} (hne : X ≠ []) :
    pyStem (X ++ extChars) = X := by
  have hmem : '.' ∈ X ++ extChars := by simp [extChars]
  have hrev : (X ++ extChars).reverse = '3' :: 'p' :: 'm' :: '.' :: X.reverse := by
    simp [extChars]
  have hidx : (X ++ extChars).reverse.indexOf '.' = 3 := by
    rw [hrev, List.indexOf_cons_ne _ (by decide), List.indexOf_cons_ne _ (by decide),
      List.indexOf_cons_ne _ (by decide), List.indexOf_cons_self]
  have hlen : (X ++ extChars).length = X.length + 4 := by simp [extChars]
  have hX : 0 < X.length := List.length_pos.mpr hne
  unfold pyStem
  rw [if_pos hmem]
  simp only [hidx, hlen]
  rw [if_pos (by omega)]
  have harith : X.length + 4 - 1 - 3 = X.length := by omega
  rw [harith]
  exact List.take_left X extChars

/-- C1 (amended): the sanitizer is idempotent on every filename whose
sanitized body is nonempty and is not itself re-stripped by the
date-prefix or FREE-prefix rules.  (The counterexample shows the general
statement fails when a stripped character exposes a date prefix; an
all-stripped body fails too, via ".mp3" → "mp3.mp3".) -/
theorem sanitize_idempotent_amended :
    ∀ s : String, sanitizeCore s.data ≠ [] →
      dateStrip (sanitizeCore s.data) = sanitizeCore s.data →
      freeStrip (sanitizeCore s.data) = sanitizeCore s.data →
      sanitize_filename (sanitize_filename s) = sanitize_filename s := by
  intro s hne hdate hfree
  have hBclean : cleanChain (sanitizeCore s.data) = sanitizeCore s.data :=
    cleanChain_idem _
  have key : sanitizeCore (sanitizeCore s.data ++ extChars) = sanitizeCore s.data := by
    show cleanChain (freeStrip (dateStrip (pyStem (sanitizeCore s.data ++ extChars))))
        = sanitizeCore s.data
    rw [pyStem_append_ext hne, hdate, hfree, hBclean]
  show String.mk (sanitizeCore (String.mk (sanitizeCore s.data ++ extChars)).data
      ++ extChars) = String.mk (sanitizeCore s.data ++ extChars)
  rw [show (String.mk (sanitizeCore s.data ++ extChars)).data
      = sanitizeCore s.data ++ extChars from rfl, key]

/-- Witness for C1 (amended) on "My Beat.mp3". -/
theorem sanitize_idempotent_amended_witness :
    (sanitizeCore "My Beat.mp3".data ≠ [] ∧
      dateStrip (sanitizeCore "My Beat.mp3".data) = sanitizeCore "My Beat.mp3".data ∧
      freeStrip (sanitizeCore "My Beat.mp3".data) = sanitizeCore "My Beat.mp3".data) ∧
    sanitize_filename (sanitize_filename "My Beat.mp3") = sanitize_filename "My Beat.mp3" :=
  ⟨⟨by decide, by decide, by decide⟩,
    sanitize_idempotent_amended "My Beat.mp3" (by decide) (by decide) (by decide)⟩

/-- C2 (amended): every sanitized name is a body followed by ".mp3", where
the body consists of Python word characters (alphanumerics and
underscores) and hyphens, with no two adjacent hyphens and no hyphen at
either end. -/
theorem sanitize_output_shape :
    ∀ s : String,
      sanitize_filename s = String.mk (sanitizeCore s.data ++ extChars) ∧
      (∀ c ∈ sanitizeCore s.data, isPyWord c = true ∨ c = '-') ∧
      (sanitizeCore s.data).Chain' HH ∧
      (∀ c, (sanitizeCore s.data).head? = some c → c ≠ '-') ∧
      (∀ c, (sanitizeCore s.data).getLast? = some c → c ≠ '-') := by
  intro s
  refine ⟨rfl, ?_, ?_, ?_, ?_⟩
  · exact fun c hc => cleanChain_mem hc
  · exact cleanChain_chain _
  · exact fun c hc => cleanChain_head hc
  · exact fun c hc => cleanChain_last hc

/-- Witness for C2 (amended) on "a b.mp3". -/
theorem sanitize_output_shape_witness :
    'a' ∈ sanitizeCore "a b.mp3".data ∧
      (isPyWord 'a' = true ∨ 'a' = '-') ∧
      sanitize_filename "a b.mp3" = String.mk (sanitizeCore "a b.mp3".data ++ extChars) :=
  ⟨by decide, (sanitize_output_shape "a b.mp3").2.1 'a' (by decide),
    (sanitize_output_shape "a b.mp3").1⟩

end BeatFlow
